import Mathlib

/-!
Shallow embedding of the light-client and relayer routines of the
`ComposableFi/beefy-client` repository that the verified claims are about,
followed by theorems settling those claims.

Components embedded:
* `CfGuest` — `light-clients/cf-guest/src/client.rs` (`verify_delay_passed`,
  `verify_height`);
* `IcsxxEthereumCw` — `light-clients/icsxx-ethereum-cw/src/contract.rs`
  (the `VerifyMembership` branch of `process_message` and
  `store_client_and_consensus_states`);
* `LightClientSync` — `hyperspace/parachain/src/light_client_sync.rs`
  (`is_synced`, `fetch_mandatory_updates` for the Grandpa finality protocol);
* `EthereumUtils` — `hyperspace/ethereum/src/utils.rs` (`send_retrying`,
  `create_intervals`);
* `NoIndexer` — `hyperspace/ethereum/src/no_indexer.rs`
  (`query_packet_commitments`, `query_packet_acknowledgements`);
* `EthereumContract` — `hyperspace/ethereum/src/contract.rs`
  (`ConnectionEnd::from_tokens`).

Machine integers are modelled as `Nat`; wrap-around is made explicit
(`% 2 ^ 32`) where the source's u32 arithmetic can wrap.  Fallible Rust code
(errors, panics, out-of-bounds indexing) is modelled with `Except`/`Option`.
-/

/-- IBC `Height` (`ibc::core::ics02_client::height::Height`):
`(revision_number, revision_height)`. -/
structure Height where
  revision_number : Nat
  revision_height : Nat
deriving DecidableEq

namespace CfGuest

/-- The `cf-guest` light-client error variants constructed by
`ClientState::verify_delay_passed` and `ClientState::verify_height`
(fields as at their construction sites in `client.rs`). -/
inductive Error where
  | notEnoughTimeElapsed (current_time earliest_time : Nat)
  | notEnoughBlocksElapsed (current_height : Height) (earliest_height : Nat)
  | insufficientHeight (latest_height target_height : Height)
  | clientFrozen (client_id : String)
deriving DecidableEq

/-- `cf_guest::ClientState` restricted to the two fields read by
`verify_height`: `latest_height` (a `guestchain::BlockHeight`, a u64) and
`is_frozen`. -/
structure ClientState where
  latest_height : Nat
  is_frozen : Bool
deriving DecidableEq

/-- `ClientState::verify_delay_passed` from
`src/light-clients/cf-guest/src/client.rs` lines 43-64.  `current_time` is
the `Timestamp`'s `nanoseconds()` value; the source's early `return Err`
statements become the `else` branches. -/
def verify_delay_passed (current_time : Nat) (current_height : Height)
    (processed_time processed_height delay_period_time delay_period_blocks : Nat) :
    Except Error Unit :=
  let earliest_time := processed_time + delay_period_time
  if current_time < earliest_time then
    Except.error (Error.notEnoughTimeElapsed current_time earliest_time)
  else
    let earliest_height := processed_height + delay_period_blocks
    if current_height.revision_height < earliest_height then
      Except.error (Error.notEnoughBlocksElapsed current_height earliest_height)
    else Except.ok ()

/-- `ClientState::verify_height` from
`src/light-clients/cf-guest/src/client.rs` lines 66-78: the height check
(`self.0.latest_height < height.revision_height`) runs before the frozen
check. -/
def verify_height (self : ClientState) (client_id : String) (height : Height) :
    Except Error Unit :=
  if self.latest_height < height.revision_height then
    Except.error (Error.insufficientHeight (Height.mk 1 self.latest_height) height)
  else if self.is_frozen then
    Except.error (Error.clientFrozen client_id)
  else Except.ok ()

end CfGuest

namespace IcsxxEthereumCw

/-- Byte strings (roots, proofs, encoded paths, values, addresses). -/
abbrev Bytes := List Nat

/-- `icsxx_ethereum::verify::Verified` (compared with `Verified::Yes` by the
contract's `ensure!`). -/
inductive Verified where
  | yes
  | no
deriving DecidableEq

/-- `icsxx_ethereum::consensus_state::ConsensusState` restricted to the
`root` field read by the `VerifyMembership` branch. -/
structure ConsensusState where
  root : Bytes
deriving DecidableEq

/-- `icsxx_ethereum::client_state::ClientState` restricted to the fields the
embedded contract branches read: `ibc_core_address` (used by
`verify_ibc_proof`) and `latest_height()` (the height at which
`store_client_and_consensus_states` stores a `Single` consensus update). -/
structure ClientState where
  ibc_core_address : Bytes
  latest_height : Height
deriving DecidableEq

/-- The fields of `VerifyMembershipMsg` used by the `VerifyMembership`
branch of `process_message` (`msg.rs` is not part of the source tree; the
fields are taken from their uses in `contract.rs`).  `pfx` is the source's
`prefix` field and `path` its byte encoding (paths serialize
deterministically to byte strings). -/
structure VerifyMembershipMsg where
  height : Height
  pfx : Bytes
  proof : Bytes
  path : Bytes
  value : Bytes

/-- Modelled from the spec: `icsxx_ethereum::verify::verify_ibc_proof` is not
part of the source tree (only its caller in `contract.rs` is).  Per spec
§4.1 the verifier "returns success iff replaying the proof's
inclusion/exclusion algorithm against `root` for the byte-encoding of `path`
yields `expected_value` (or, for non-membership, yields 'absent')".  The
chain-specific replay algorithm is abstracted as the `replay` parameter
(arguments in the order of the source call site: prefix, proof, root,
`ibc_core_address`, path); `replay ... = none` means "absent". -/
def verify_ibc_proof (replay : Bytes → Bytes → Bytes → Bytes → Bytes → Option Bytes)
    (pfx proof root address path : Bytes) (value : Option Bytes) :
    Except String Verified :=
  if replay pfx proof root address path = value then Except.ok Verified.yes
  else Except.ok Verified.no

/-- The `ExecuteMsg::VerifyMembership` branch of `process_message` from
`src/light-clients/icsxx-ethereum-cw/src/contract.rs` lines 109-136:
look up the consensus state at `msg.height` and the client state, call
`verify_ibc_proof`, and `ensure!(verified == Verified::Yes)`.  The branch
only reads storage, so the context is passed as read-only lookups. -/
def process_message_verify_membership
    (replay : Bytes → Bytes → Bytes → Bytes → Bytes → Option Bytes)
    (consensus_states : Height → Option ConsensusState)
    (client_state : Option ClientState)
    (msg : VerifyMembershipMsg) : Except String Unit :=
  match consensus_states msg.height with
  | none => Except.error "consensus state not found"
  | some consensus_state =>
    match client_state with
    | none => Except.error "client state not found"
    | some cls =>
      match verify_ibc_proof replay msg.pfx msg.proof consensus_state.root
          cls.ibc_core_address msg.path (some msg.value) with
      | Except.error e => Except.error e
      | Except.ok verified =>
        if verified = Verified.yes then Except.ok ()
        else Except.error "failed to verify membership proof"

/-- `ibc::core::ics02_client::client_def::ConsensusUpdateResult`. -/
inductive ConsensusUpdateResult where
  | single (cs : ConsensusState)
  | batch (css : List (Height × ConsensusState))

/-- `Context::store_consensus_state`: a CosmWasm `Map::save`, i.e. an
unconditional overwrite of the entry at `height`. -/
def store_consensus_state (store : Height → Option ConsensusState)
    (height : Height) (cs : ConsensusState) : Height → Option ConsensusState :=
  fun h => if h = height then some cs else store h

/-- `store_client_and_consensus_states` from
`src/light-clients/icsxx-ethereum-cw/src/contract.rs` lines 282-309: store
the consensus update (a `Single` update at `client_state.latest_height()`, a
`Batch` at each carried height), then the client state; every write is an
unconditional overwrite and the function then returns success.  The result
is the updated consensus-state store and the stored client state. -/
def store_client_and_consensus_states
    (consensus_store : Height → Option ConsensusState)
    (client_state : ClientState)
    (consensus_update : ConsensusUpdateResult) :
    (Height → Option ConsensusState) × ClientState :=
  let height := client_state.latest_height
  match consensus_update with
  | ConsensusUpdateResult.single cs =>
    (store_consensus_state consensus_store height cs, client_state)
  | ConsensusUpdateResult.batch css =>
    (css.foldl (fun s p => store_consensus_state s p.1 p.2) consensus_store, client_state)

end IcsxxEthereumCw

namespace LightClientSync

/-- Modelled from the spec: `GrandpaProver::session_end_for_block` lives in
the `grandpa-prover` crate, which is not part of the source tree.  Per spec
§4.3 Grandpa "operates in epochs ('sessions') of fixed length", so session
boundaries sit at multiples of `session_length` and the end of the session
containing `block` is the least multiple of `session_length` that is
`≥ block` (in particular it equals `block` when `block` is itself a
boundary, which is exactly the case `fetch_mandatory_updates` special-cases
by bumping `session_end_block` one session forward). -/
def session_end_for_block (session_length block : Nat) : Nat :=
  session_length * ((block + session_length - 1) / session_length)

/-- The `while session_end_block < latest_finalized_height` loop of
`fetch_mandatory_updates` (`light_client_sync.rs` lines 156-168) followed by
the final `latest_message` (lines 169-177).  Each emitted pair is the
`(previous_finalized_height, block)` pair passed to `get_message` /
`query_finality_proof`.  The loop advances `session_end_block` by
`session_length ≥ 1` each iteration, so `latest - session_end_block` bounds
the iteration count and is used as structural fuel; with the fuel of
`fetchLoop` below the `0`-fuel branch is only reached once the loop guard
is false, where it agrees with the guard-false branch. -/
def fetchLoopGo (session_length latest_finalized_height : Nat) :
    Nat → Nat → Nat → List (Nat × Nat)
  | 0, previous, _ => [(previous, latest_finalized_height)]
  | fuel + 1, previous, session_end_block =>
    if session_end_block < latest_finalized_height then
      (previous, session_end_block) ::
        fetchLoopGo session_length latest_finalized_height fuel session_end_block
          (session_end_block + session_length)
    else [(previous, latest_finalized_height)]

/-- The loop of `fetch_mandatory_updates` with its fuel instantiated. -/
def fetchLoop (session_length latest_finalized_height previous session_end_block : Nat) :
    List (Nat × Nat) :=
  fetchLoopGo session_length latest_finalized_height
    (latest_finalized_height - session_end_block) previous session_end_block

/-- The initial `session_end_block` of `fetch_mandatory_updates`
(`light_client_sync.rs` lines 119-126): `session_end_for_block` of
`previous_finalized_height`, bumped by one `session_length` when it equals
`previous_finalized_height`. -/
def bumped_session_end (session_length previous_finalized_height : Nat) : Nat :=
  if session_end_for_block session_length previous_finalized_height =
      previous_finalized_height then
    session_end_for_block session_length previous_finalized_height + session_length
  else session_end_for_block session_length previous_finalized_height

/-- `LightClientSync::fetch_mandatory_updates` (Grandpa arm) from
`src/hyperspace/parachain/src/light_client_sync.rs` lines 90-185, reduced to
the heights it computes: starting from the client state's
`latest_relay_height` (`previous_finalized_height`), compute the bumped
`session_end_block`, then emit one `(from, to)` update per session boundary
below `latest_finalized_height` and a final update to
`latest_finalized_height`. -/
def fetch_mandatory_updates
    (session_length previous_finalized_height latest_finalized_height : Nat) :
    List (Nat × Nat) :=
  fetchLoop session_length latest_finalized_height previous_finalized_height
    (bumped_session_end session_length previous_finalized_height)

/-- `LightClientSync::is_synced` (Grandpa arm) from
`src/hyperspace/parachain/src/light_client_sync.rs` lines 51-88:
`session_changes = (latest_finalized_height - session_end_block) / session_length`
on u32 (the subtraction wraps modulo `2 ^ 32` when
`session_end_block > latest_finalized_height`; note that unlike
`fetch_mandatory_updates` this function does not bump `session_end_block`),
and the result is `!(session_changes >= 1)`. -/
def is_synced (session_length previous_finalized_height latest_finalized_height : Nat) :
    Bool :=
  decide (¬ 1 ≤ ((latest_finalized_height + 2 ^ 32 -
    session_end_for_block session_length previous_finalized_height) % 2 ^ 32) /
    session_length)

end LightClientSync

namespace EthereumUtils

/-- The outcome of one `method.send()` attempt as observed by
`send_retrying`: success (with a receipt), the "replacement transaction
underpriced" error, or any other error. -/
inductive SendResult where
  | ok (receipt : Nat)
  | errUnderpriced
  | errOther (e : Nat)
deriving DecidableEq

/-- `send_retrying` from `src/hyperspace/ethereum/src/utils.rs` lines
1284-1311: `loop` over send attempts — return the receipt on `Ok`, sleep one
second and `continue` on a "replacement transaction underpriced" error,
return the error otherwise.  The loop is embedded over the finite trace of
attempt outcomes it observes; `none` means the trace was exhausted with the
loop still running, i.e. after that many attempts the routine is still
retrying. -/
def send_retrying : List SendResult → Option (Except Nat Nat)
  | [] => none
  | SendResult.ok v :: _ => some (Except.ok v)
  | SendResult.errUnderpriced :: rest => send_retrying rest
  | SendResult.errOther e :: _ => some (Except.error e)

/-- `SEQUENCES_PER_ITER` from `src/hyperspace/ethereum/src/utils.rs` line 55. -/
def SEQUENCES_PER_ITER : Nat := 256

/-- The `while current_start <= end` loop of `create_intervals`.  Each
iteration moves `current_start` to `current_end + 1 ≥ current_start + 1`, so
`stop + 1 - start` bounds the iteration count and is used as structural
fuel; the `0`-fuel branch is only reached once `start > stop`, where it
agrees with the loop exit. -/
def createIntervalsGo : Nat → Nat → Nat → List (Nat × Nat)
  | 0, _, _ => []
  | fuel + 1, start, stop =>
    if start ≤ stop then
      (start, min (start + SEQUENCES_PER_ITER - 1) stop) ::
        createIntervalsGo fuel (min (start + SEQUENCES_PER_ITER - 1) stop + 1) stop
    else []

/-- `create_intervals(start, end)` from
`src/hyperspace/ethereum/src/utils.rs` lines 1092-1103 (the `end` parameter
is named `stop` here because `end` is reserved). -/
def create_intervals (start stop : Nat) : List (Nat × Nat) :=
  createIntervalsGo (stop + 1 - start) start stop

end EthereumUtils

namespace NoIndexer

/-- `IbcProvider::query_packet_commitments` from
`src/hyperspace/ethereum/src/no_indexer.rs` lines 1041-1081, reduced to its
pure sequence computation: `start_seq = 0`, `end_seq = 255`, and from the
256-bit `bitmap` returned by the `hasCommitments` contract call push
`start_seq + i` for each set bit `i` in `0..256`. -/
def query_packet_commitments (bitmap : Nat) : List Nat :=
  let start_seq := 0
  (List.range 256).foldl
    (fun seqs i => if bitmap.testBit i then seqs ++ [start_seq + i] else seqs) []

/-- `IbcProvider::query_packet_acknowledgements` from
`src/hyperspace/ethereum/src/no_indexer.rs` lines 1083-1123: identical
bitmap scan over the hard-coded range `0..=255` (via `hasAcknowledgements`). -/
def query_packet_acknowledgements (bitmap : Nat) : List Nat :=
  let start_seq := 0
  (List.range 256).foldl
    (fun seqs i => if bitmap.testBit i then seqs ++ [start_seq + i] else seqs) []

end NoIndexer

namespace EthereumContract

/-- `ethers::abi::Token` (the `ethabi` token type). -/
inductive Token where
  | address (a : Nat)
  | fixedBytes (b : List Nat)
  | bytes (b : List Nat)
  | int (i : Int)
  | uint (u : Nat)
  | boolean (b : Bool)
  | string (s : String)
  | fixedArray (ts : List Token)
  | array (ts : List Token)
  | tuple (ts : List Token)

/-- `ethabi::Token::into_string`: `Some` exactly on the `String` variant. -/
def Token.into_string : Token → Option String
  | Token.string s => some s
  | _ => none

/-- `ethabi::Token::into_uint`: `Some` exactly on the `Uint` variant. -/
def Token.into_uint : Token → Option Nat
  | Token.uint u => some u
  | _ => none

/-- `ethabi::Token::into_array`: `Some` exactly on the `Array` variant. -/
def Token.into_array : Token → Option (List Token)
  | Token.array ts => some ts
  | _ => none

/-- `ethabi::Token::into_bytes`: `Some` exactly on the `Bytes` variant. -/
def Token.into_bytes : Token → Option (List Nat)
  | Token.bytes b => some b
  | _ => none

/-- `U256::as_u32` panics when the value exceeds `u32::MAX`. -/
def as_u32 (u : Nat) : Option Nat :=
  if u < 2 ^ 32 then some u else none

/-- `U256::as_u64` panics when the value exceeds `u64::MAX`. -/
def as_u64 (u : Nat) : Option Nat :=
  if u < 2 ^ 64 then some u else none

/-- `Version` from `src/hyperspace/ethereum/src/contract.rs`. -/
structure Version where
  identifier : String
  features : List String

/-- `Counterparty` from `src/hyperspace/ethereum/src/contract.rs` (the
source's `prefix` field is named `pfx` here because `prefix` is reserved). -/
structure Counterparty where
  client_id : String
  connection_id : String
  pfx : List Nat

/-- `ConnectionEnd` from `src/hyperspace/ethereum/src/contract.rs`. -/
structure ConnectionEnd where
  client_id : String
  versions : List Version
  state : Nat
  counterparty : Counterparty
  delay_period : Nat

/-- The `while let (Some(identifier), Some(features)) = (it.next(), it.next())`
loop of `ConnectionEnd::from_tokens`: consume the token list two at a time,
unwrapping each identifier as a string and each feature list as an array of
strings; a trailing odd token ends the loop without being decoded. -/
def versionsFromTokens : List Token → Option (List Version)
  | identifier :: features :: rest => do
    let i ← identifier.into_string
    let fts ← features.into_array
    let fs ← fts.mapM Token.into_string
    let vs ← versionsFromTokens rest
    some (Version.mk i fs :: vs)
  | _ => some []

/-- `ConnectionEnd::from_tokens` from
`src/hyperspace/ethereum/src/contract.rs` lines 324-362, with every
panicking operation (`tokens[i]` indexing, `into_*().unwrap()`,
`as_u32`/`as_u64`) modelled as an `Option` bind, in the source's evaluation
order.  Note `tokens[4]` is decoded both as a string (the counterparty
`connection_id`) and as a uint (`delay_period`). -/
def ConnectionEnd.from_tokens (tokens : List Token) : Option ConnectionEnd := do
  let vec ← tokens[1]? >>= Token.into_array
  let versions ← versionsFromTokens vec
  let client_id ← tokens[0]? >>= Token.into_string
  let state_u ← tokens[2]? >>= Token.into_uint
  let state ← as_u32 state_u
  let cp_client_id ← tokens[3]? >>= Token.into_string
  let cp_connection_id ← tokens[4]? >>= Token.into_string
  let cp_pfx ← tokens[5]? >>= Token.into_bytes
  let delay_u ← tokens[4]? >>= Token.into_uint
  let delay_period ← as_u64 delay_u
  some (ConnectionEnd.mk client_id versions state
    (Counterparty.mk cp_client_id cp_connection_id cp_pfx) delay_period)

end EthereumContract

/-!
Theorems settling the claims.  Helper lemmas come first; each claim's
theorem (and, where applicable, counterexample and witness) follows.
-/

section Helpers

/-- `send_retrying` consumes any block of leading underpriced-replacement
errors and continues with the rest of the trace. -/
theorem send_retrying_replicate_append (n : Nat) (l : List EthereumUtils.SendResult) :
    EthereumUtils.send_retrying
        (List.replicate n EthereumUtils.SendResult.errUnderpriced ++ l) =
      EthereumUtils.send_retrying l := by
  induction n with
  | zero => rfl
  | succ n ih => rw [List.replicate_succ, List.cons_append, EthereumUtils.send_retrying, ih]

/-- After any number of consecutive underpriced-replacement errors,
`send_retrying` is still retrying. -/
theorem send_retrying_replicate_underpriced (n : Nat) :
    EthereumUtils.send_retrying
        (List.replicate n EthereumUtils.SendResult.errUnderpriced) = none := by
  have h := send_retrying_replicate_append n []
  simpa using h

end Helpers

/-- C2, counterexample: when both the time delay and the block delay are
unsatisfied, `verify_delay_passed` fails with `NotEnoughTimeElapsed` (the
time check runs first), not with `NotEnoughBlocksElapsed` as the claim's
block-failure clause states. -/
theorem counterexample_C2_delay_error_priority :
    CfGuest.verify_delay_passed 0 (Height.mk 0 0) 0 0 5 5 =
      Except.error (CfGuest.Error.notEnoughTimeElapsed 0 5) ∧
    (0 : Nat) < 0 + 5 ∧ (0 : Nat) < 0 + 5 ∧
    CfGuest.verify_delay_passed 0 (Height.mk 0 0) 0 0 5 5 ≠
      Except.error (CfGuest.Error.notEnoughBlocksElapsed (Height.mk 0 0) 5) := by
  refine ⟨rfl, by omega, by omega, ?_⟩
  intro h
  rw [show CfGuest.verify_delay_passed 0 (Height.mk 0 0) 0 0 5 5 =
      Except.error (CfGuest.Error.notEnoughTimeElapsed 0 5) from rfl] at h
  injection h with h'
  exact CfGuest.Error.noConfusion h'

/-- C2, amended: `verify_delay_passed t h pt ph dt db` succeeds iff
`pt + dt ≤ t` and `ph + db ≤ h.revision_height` (boundary cases inclusive);
when `t < pt + dt` it fails with `NotEnoughTimeElapsed`; when the time check
passes but `h.revision_height < ph + db` it fails with
`NotEnoughBlocksElapsed` (when both are unsatisfied the time error wins). -/
theorem claim_C2_verify_delay_passed (t : Nat) (ch : Height) (pt ph dt db : Nat) :
    (CfGuest.verify_delay_passed t ch pt ph dt db = Except.ok () ↔
      pt + dt ≤ t ∧ ph + db ≤ ch.revision_height) ∧
    (t < pt + dt →
      CfGuest.verify_delay_passed t ch pt ph dt db =
        Except.error (CfGuest.Error.notEnoughTimeElapsed t (pt + dt))) ∧
    (pt + dt ≤ t → ch.revision_height < ph + db →
      CfGuest.verify_delay_passed t ch pt ph dt db =
        Except.error (CfGuest.Error.notEnoughBlocksElapsed ch (ph + db))) := by
  simp only [CfGuest.verify_delay_passed]
  split_ifs with h1 h2 <;> refine ⟨?_, ?_, ?_⟩ <;> simp_all

/-- C2, witness for the amended claim at a concrete input. -/
theorem claim_C2_verify_delay_passed_witness :
    CfGuest.verify_delay_passed 0 (Height.mk 0 0) 0 0 5 0 =
      Except.error (CfGuest.Error.notEnoughTimeElapsed 0 (0 + 5)) :=
  (claim_C2_verify_delay_passed 0 (Height.mk 0 0) 0 0 5 0).2.1 (by omega)

/-- C3, counterexample: a frozen client state (`is_frozen = true`) queried
at a target height above `latest_height` fails with `InsufficientHeight`,
not `ClientFrozen` — the height check runs first in `verify_height`. -/
theorem counterexample_C3_frozen_height_order :
    (CfGuest.ClientState.mk 5 true).is_frozen = true ∧
    CfGuest.verify_height (CfGuest.ClientState.mk 5 true) "08-wasm-0" (Height.mk 0 10) =
      Except.error (CfGuest.Error.insufficientHeight (Height.mk 1 5) (Height.mk 0 10)) ∧
    CfGuest.verify_height (CfGuest.ClientState.mk 5 true) "08-wasm-0" (Height.mk 0 10) ≠
      Except.error (CfGuest.Error.clientFrozen "08-wasm-0") := by
  refine ⟨rfl, rfl, ?_⟩
  intro h
  rw [show CfGuest.verify_height (CfGuest.ClientState.mk 5 true) "08-wasm-0" (Height.mk 0 10) =
      Except.error (CfGuest.Error.insufficientHeight (Height.mk 1 5) (Height.mk 0 10)) from
      rfl] at h
  injection h with h'
  exact CfGuest.Error.noConfusion h'

/-- C3, amended: a frozen client never passes `verify_height`, but the error
depends on the target height: `ClientFrozen` only when the target's
`revision_height` does not exceed `latest_height`, `InsufficientHeight`
otherwise (the height check runs before the frozen check). -/
theorem claim_C3_frozen_client_fails (cs : CfGuest.ClientState) (cid : String)
    (h : Height) (hf : cs.is_frozen = true) :
    (h.revision_height ≤ cs.latest_height →
      CfGuest.verify_height cs cid h = Except.error (CfGuest.Error.clientFrozen cid)) ∧
    (cs.latest_height < h.revision_height →
      CfGuest.verify_height cs cid h =
        Except.error (CfGuest.Error.insufficientHeight (Height.mk 1 cs.latest_height) h)) ∧
    CfGuest.verify_height cs cid h ≠ Except.ok () := by
  unfold CfGuest.verify_height
  split_ifs with h1 <;> refine ⟨?_, ?_, ?_⟩ <;> simp_all

/-- C3, witness for the amended claim at a concrete input. -/
theorem claim_C3_frozen_client_fails_witness :
    CfGuest.verify_height (CfGuest.ClientState.mk 5 true) "client" (Height.mk 0 3) =
      Except.error (CfGuest.Error.clientFrozen "client") :=
  (claim_C3_frozen_client_fails (CfGuest.ClientState.mk 5 true) "client"
    (Height.mk 0 3) rfl).1 (by decide)

/-- C1: the `VerifyMembership` entry point succeeds iff replaying the
proof's inclusion algorithm (the `replay` abstraction of the spec-modelled
`verify_ibc_proof`) against the stored root for the path yields exactly the
expected value; any input on which replay yields anything else produces an
error.  The embedding is a pure function of its inputs and performs no
writes. -/
theorem claim_C1_verify_membership
    (replay : IcsxxEthereumCw.Bytes → IcsxxEthereumCw.Bytes → IcsxxEthereumCw.Bytes →
      IcsxxEthereumCw.Bytes → IcsxxEthereumCw.Bytes → Option IcsxxEthereumCw.Bytes)
    (consensus_states : Height → Option IcsxxEthereumCw.ConsensusState)
    (client_state : Option IcsxxEthereumCw.ClientState)
    (msg : IcsxxEthereumCw.VerifyMembershipMsg)
    (cs : IcsxxEthereumCw.ConsensusState) (cls : IcsxxEthereumCw.ClientState)
    (hcs : consensus_states msg.height = some cs)
    (hcls : client_state = some cls) :
    IcsxxEthereumCw.process_message_verify_membership replay consensus_states
        client_state msg = Except.ok () ↔
      replay msg.pfx msg.proof cs.root cls.ibc_core_address msg.path = some msg.value := by
  unfold IcsxxEthereumCw.process_message_verify_membership
  rw [hcs, hcls]
  unfold IcsxxEthereumCw.verify_ibc_proof
  by_cases h : replay msg.pfx msg.proof cs.root cls.ibc_core_address msg.path =
      some msg.value <;> simp [h]

/-- C1, witness: a concrete replay function, stored states and message on
which the verification succeeds. -/
theorem claim_C1_verify_membership_witness :
    IcsxxEthereumCw.process_message_verify_membership
        (fun _ _ _ _ _ => some [7])
        (fun _ => some (IcsxxEthereumCw.ConsensusState.mk [3]))
        (some (IcsxxEthereumCw.ClientState.mk [4] (Height.mk 0 1)))
        (IcsxxEthereumCw.VerifyMembershipMsg.mk (Height.mk 0 1) [] [] [] [7]) =
      Except.ok () ↔
    (some [7] : Option IcsxxEthereumCw.Bytes) = some [7] :=
  claim_C1_verify_membership (fun _ _ _ _ _ => some [7])
    (fun _ => some (IcsxxEthereumCw.ConsensusState.mk [3]))
    (some (IcsxxEthereumCw.ClientState.mk [4] (Height.mk 0 1)))
    (IcsxxEthereumCw.VerifyMembershipMsg.mk (Height.mk 0 1) [] [] [] [7])
    (IcsxxEthereumCw.ConsensusState.mk [3])
    (IcsxxEthereumCw.ClientState.mk [4] (Height.mk 0 1)) rfl rfl

/-- C4, counterexample: with a `ConsensusState` (root `[1]`) already stored
at height `(0, 7)`, the `UpdateState` storing path commits a different
`ConsensusState` (root `[2]`) at that height and reports success — the
stored entry is silently overwritten, with no equality check and no
misbehaviour routing. -/
theorem counterexample_C4_silent_overwrite :
    (fun h => if h = Height.mk 0 7 then
        some (IcsxxEthereumCw.ConsensusState.mk [1]) else none) (Height.mk 0 7) =
      some (IcsxxEthereumCw.ConsensusState.mk [1]) ∧
    (IcsxxEthereumCw.store_client_and_consensus_states
        (fun h => if h = Height.mk 0 7 then
          some (IcsxxEthereumCw.ConsensusState.mk [1]) else none)
        (IcsxxEthereumCw.ClientState.mk [] (Height.mk 0 7))
        (IcsxxEthereumCw.ConsensusUpdateResult.single
          (IcsxxEthereumCw.ConsensusState.mk [2]))).1 (Height.mk 0 7) =
      some (IcsxxEthereumCw.ConsensusState.mk [2]) ∧
    IcsxxEthereumCw.ConsensusState.mk [2] ≠ IcsxxEthereumCw.ConsensusState.mk [1] := by
  refine ⟨by decide, by decide, by decide⟩

/-- C4, amended: `store_client_and_consensus_states` commits the new
`ConsensusState` at the client state's latest height unconditionally —
overwriting whatever was stored there, without an equality check or any
misbehaviour routing — and leaves every other height unchanged.  (The call
always returns success.) -/
theorem claim_C4_store_overwrites
    (store : Height → Option IcsxxEthereumCw.ConsensusState)
    (cs : IcsxxEthereumCw.ClientState) (v : IcsxxEthereumCw.ConsensusState) :
    (IcsxxEthereumCw.store_client_and_consensus_states store cs
        (IcsxxEthereumCw.ConsensusUpdateResult.single v)).1 cs.latest_height = some v ∧
    (∀ h, h ≠ cs.latest_height →
      (IcsxxEthereumCw.store_client_and_consensus_states store cs
          (IcsxxEthereumCw.ConsensusUpdateResult.single v)).1 h = store h) := by
  constructor
  · simp [IcsxxEthereumCw.store_client_and_consensus_states,
      IcsxxEthereumCw.store_consensus_state]
  · intro h hne
    simp [IcsxxEthereumCw.store_client_and_consensus_states,
      IcsxxEthereumCw.store_consensus_state, hne]

/-- C4, witness for the amended claim at a concrete input. -/
theorem claim_C4_store_overwrites_witness :
    (IcsxxEthereumCw.store_client_and_consensus_states
        (fun _ => none)
        (IcsxxEthereumCw.ClientState.mk [] (Height.mk 0 7))
        (IcsxxEthereumCw.ConsensusUpdateResult.single
          (IcsxxEthereumCw.ConsensusState.mk [2]))).1 (Height.mk 0 8) =
      (fun _ => (none : Option IcsxxEthereumCw.ConsensusState)) (Height.mk 0 8) :=
  (claim_C4_store_overwrites (fun _ => none)
    (IcsxxEthereumCw.ClientState.mk [] (Height.mk 0 7))
    (IcsxxEthereumCw.ConsensusState.mk [2])).2 (Height.mk 0 8) (by decide)

/-- C7, counterexample: after 300 consecutive underpriced-replacement
errors, `send_retrying` is still retrying — the loop has no bound on the
number of attempts (and its signature takes no bound input). -/
theorem counterexample_C7_unbounded_retry :
    EthereumUtils.send_retrying
        (List.replicate 300 EthereumUtils.SendResult.errUnderpriced) = none :=
  send_retrying_replicate_underpriced 300

/-- C7, amended: `send_retrying` retries indefinitely on
underpriced-replacement errors, with no bound on the number of attempts:
for every `n`, after `n` underpriced failures it is still retrying, and it
returns only when an attempt finally succeeds (the receipt) or fails with a
non-underpriced error (that error). -/
theorem claim_C7_send_retrying (n v e : Nat) :
    EthereumUtils.send_retrying
        (List.replicate n EthereumUtils.SendResult.errUnderpriced) = none ∧
    EthereumUtils.send_retrying
        (List.replicate n EthereumUtils.SendResult.errUnderpriced ++
          [EthereumUtils.SendResult.ok v]) = some (Except.ok v) ∧
    EthereumUtils.send_retrying
        (List.replicate n EthereumUtils.SendResult.errUnderpriced ++
          [EthereumUtils.SendResult.errOther e]) = some (Except.error e) := by
  refine ⟨send_retrying_replicate_underpriced n, ?_, ?_⟩ <;>
    rw [send_retrying_replicate_append] <;> rfl

/-- Pushing into an accumulator under a filter test, as the bitmap loops of
`query_packet_commitments` / `query_packet_acknowledgements` do, appends
exactly the image of the filtered list. -/
theorem foldl_push_filter (p : Nat → Bool) (f : Nat → Nat) :
    ∀ (l : List Nat) (init : List Nat),
      l.foldl (fun acc i => if p i then acc ++ [f i] else acc) init =
        init ++ (l.filter p).map f := by
  intro l
  induction l with
  | nil => intro init; simp
  | cons a t ih =>
    intro init
    by_cases h : p a <;> simp [List.foldl_cons, h, ih, List.filter_cons]

/-- C9: the Ethereum packet-discovery queries scan exactly the hard-coded
range `0..=255`: a sequence is reported by `query_packet_commitments`
(resp. `query_packet_acknowledgements`) iff it is below 256 and its bitmap
bit is set — so no sequence greater than 255 is ever reported. -/
theorem claim_C9_packet_range (bitmap s : Nat) :
    (s ∈ NoIndexer.query_packet_commitments bitmap ↔
      s < 256 ∧ bitmap.testBit s = true) ∧
    (s ∈ NoIndexer.query_packet_acknowledgements bitmap ↔
      s < 256 ∧ bitmap.testBit s = true) := by
  constructor <;>
  · simp only [NoIndexer.query_packet_commitments,
      NoIndexer.query_packet_acknowledgements]
    rw [foldl_push_filter]
    simp [List.mem_filter, List.mem_range]

/-- The `create_intervals` loop produces nothing once `start` exceeds the
upper bound. -/
theorem createIntervalsGo_stop_lt (fuel start stop : Nat) (h : stop < start) :
    EthereumUtils.createIntervalsGo fuel start stop = [] := by
  cases fuel with
  | zero => rfl
  | succ n =>
    unfold EthereumUtils.createIntervalsGo
    rw [if_neg (by omega)]

/-- Structure of the `create_intervals` loop output (with enough fuel):
the first interval starts at `start`, the last ends at `stop`, consecutive
intervals are adjacent and disjoint, every interval is non-empty and spans
at most 256 sequences, and interval starts strictly increase. -/
theorem createIntervalsGo_spec :
    ∀ (fuel start stop : Nat), stop + 1 - start ≤ fuel → start ≤ stop →
      (EthereumUtils.createIntervalsGo fuel start stop).head?.map Prod.fst =
        some start ∧
      (EthereumUtils.createIntervalsGo fuel start stop).getLast?.map Prod.snd =
        some stop ∧
      List.Chain' (fun a b => b.1 = a.2 + 1)
        (EthereumUtils.createIntervalsGo fuel start stop) ∧
      (∀ p ∈ EthereumUtils.createIntervalsGo fuel start stop,
        p.1 ≤ p.2 ∧ p.2 + 1 - p.1 ≤ 256) ∧
      List.Chain' (fun a b => a.1 < b.1)
        (EthereumUtils.createIntervalsGo fuel start stop) := by
  intro fuel
  induction fuel with
  | zero => intro start stop hf hle; omega
  | succ n ih =>
    intro start stop hf hle
    have h256 : EthereumUtils.SEQUENCES_PER_ITER = 256 := rfl
    have hmle : min (start + 256 - 1) stop ≤ stop := Nat.min_le_right _ _
    have hml : min (start + 256 - 1) stop ≤ start + 256 - 1 := Nat.min_le_left _ _
    have hmge : start ≤ min (start + 256 - 1) stop := le_min (by omega) hle
    rw [EthereumUtils.createIntervalsGo, if_pos hle, h256]
    by_cases hce : min (start + 256 - 1) stop = stop
    · have htail : EthereumUtils.createIntervalsGo n (min (start + 256 - 1) stop + 1)
          stop = [] := createIntervalsGo_stop_lt n _ stop (by omega)
      rw [htail]
      refine ⟨by simp, by rw [hce]; simp, by simp, ?_, by simp⟩
      intro p hp
      simp only [List.mem_singleton] at hp
      subst hp
      constructor <;> simp <;> omega
    · have hlt : min (start + 256 - 1) stop < stop := by omega
      have hf' : stop + 1 - (min (start + 256 - 1) stop + 1) ≤ n := by omega
      have hle' : min (start + 256 - 1) stop + 1 ≤ stop := by omega
      obtain ⟨ih1, ih2, ih3, ih4, ih5⟩ := ih (min (start + 256 - 1) stop + 1) stop hf' hle'
      obtain ⟨q, rest, htl⟩ : ∃ q rest,
          EthereumUtils.createIntervalsGo n (min (start + 256 - 1) stop + 1) stop =
            q :: rest := by
        cases hE : EthereumUtils.createIntervalsGo n (min (start + 256 - 1) stop + 1)
            stop with
        | nil => rw [hE] at ih1; simp at ih1
        | cons q rest => exact ⟨q, rest, rfl⟩
      rw [htl] at ih1 ih2 ih3 ih4 ih5 ⊢
      have hq1 : q.1 = min (start + 256 - 1) stop + 1 := by
        simp only [List.head?_cons, Option.map_some'] at ih1
        exact Option.some.inj ih1
      refine ⟨by simp, ?_, ?_, ?_, ?_⟩
      · rw [List.getLast?_cons_cons]
        exact ih2
      · rw [List.chain'_cons]
        exact ⟨hq1, ih3⟩
      · intro p hp
        rcases List.mem_cons.mp hp with rfl | hp'
        · constructor <;> simp <;> omega
        · exact ih4 p hp'
      · rw [List.chain'_cons]
        exact ⟨by omega, ih5⟩

/-- C8: for `start ≤ end`, `create_intervals(start, end)` returns a
non-empty list of intervals whose first interval starts at `start`, whose
last interval ends at `end`, which are consecutive and disjoint
(`s_{i+1} = e_i + 1`), each containing at most `SEQUENCES_PER_ITER = 256`
sequences, in strictly increasing order; for `start > end` it returns the
empty list. -/
theorem claim_C8_create_intervals (start stop : Nat) :
    (stop < start → EthereumUtils.create_intervals start stop = []) ∧
    (start ≤ stop →
      EthereumUtils.create_intervals start stop ≠ [] ∧
      (EthereumUtils.create_intervals start stop).head?.map Prod.fst = some start ∧
      (EthereumUtils.create_intervals start stop).getLast?.map Prod.snd = some stop ∧
      List.Chain' (fun a b => b.1 = a.2 + 1)
        (EthereumUtils.create_intervals start stop) ∧
      (∀ p ∈ EthereumUtils.create_intervals start stop,
        p.1 ≤ p.2 ∧ p.2 + 1 - p.1 ≤ EthereumUtils.SEQUENCES_PER_ITER) ∧
      List.Chain' (fun a b => a.1 < b.1)
        (EthereumUtils.create_intervals start stop)) := by
  constructor
  · intro h
    exact createIntervalsGo_stop_lt _ _ _ h
  · intro h
    obtain ⟨h1, h2, h3, h4, h5⟩ :=
      createIntervalsGo_spec (stop + 1 - start) start stop (le_refl _) h
    refine ⟨?_, h1, h2, h3, h4, h5⟩
    intro hnil
    rw [EthereumUtils.create_intervals] at hnil
    rw [hnil] at h1
    simp at h1

/-- C8, witness at concrete inputs. -/
theorem claim_C8_create_intervals_witness :
    EthereumUtils.create_intervals 7 3 = [] :=
  (claim_C8_create_intervals 7 3).1 (by omega)

/-- The `fetch_mandatory_updates` loop always emits at least the final
message. -/
theorem fetchLoopGo_ne_nil (sl latest fuel prev se : Nat) :
    LightClientSync.fetchLoopGo sl latest fuel prev se ≠ [] := by
  cases fuel with
  | zero => simp [LightClientSync.fetchLoopGo]
  | succ n =>
    unfold LightClientSync.fetchLoopGo
    split_ifs <;> simp

/-- The head of the loop output targets either the current
`session_end_block` or `latest_finalized_height`. -/
theorem fetchLoopGo_head (sl latest fuel prev se : Nat) :
    ∃ q rest, LightClientSync.fetchLoopGo sl latest fuel prev se = q :: rest ∧
      (q.2 = latest ∨ q.2 = se) := by
  cases fuel with
  | zero => exact ⟨(prev, latest), [], rfl, Or.inl rfl⟩
  | succ n =>
    unfold LightClientSync.fetchLoopGo
    split_ifs with h
    · exact ⟨(prev, se), _, rfl, Or.inr rfl⟩
    · exact ⟨(prev, latest), [], rfl, Or.inl rfl⟩

/-- The last message emitted by the loop targets
`latest_finalized_height`. -/
theorem fetchLoopGo_getLast (sl latest : Nat) :
    ∀ fuel prev se,
      (LightClientSync.fetchLoopGo sl latest fuel prev se).getLast?.map Prod.snd =
        some latest := by
  intro fuel
  induction fuel with
  | zero => intro prev se; simp [LightClientSync.fetchLoopGo]
  | succ n ih =>
    intro prev se
    unfold LightClientSync.fetchLoopGo
    split_ifs with h
    · obtain ⟨q, rest, htl, _⟩ := fetchLoopGo_head sl latest n se (se + sl)
      rw [htl, List.getLast?_cons_cons]
      have := ih se (se + sl)
      rw [htl] at this
      exact this
    · simp

/-- Target heights of the loop output strictly increase (for a positive
session length). -/
theorem fetchLoopGo_chain_snd (sl latest : Nat) (hsl : 0 < sl) :
    ∀ fuel prev se, List.Chain' (fun a b => a.2 < b.2)
      (LightClientSync.fetchLoopGo sl latest fuel prev se) := by
  intro fuel
  induction fuel with
  | zero => intro prev se; simp [LightClientSync.fetchLoopGo]
  | succ n ih =>
    intro prev se
    unfold LightClientSync.fetchLoopGo
    split_ifs with h
    · obtain ⟨q, rest, htl, hq⟩ := fetchLoopGo_head sl latest n se (se + sl)
      rw [htl, List.chain'_cons]
      refine ⟨?_, ?_⟩
      · rcases hq with h1 | h1 <;> rw [h1] <;> omega
      · have := ih se (se + sl)
        rw [htl] at this
        exact this
    · simp

/-- `(a :: b :: l).dropLast = a :: (b :: l).dropLast`. -/
theorem dropLast_cons_cons {α : Type} (a b : α) (l : List α) :
    (a :: b :: l).dropLast = a :: (b :: l).dropLast := rfl

/-- Every non-final message emitted by the loop targets a session boundary
(a multiple of the session length, given the loop starts at one) strictly
below `latest_finalized_height`. -/
theorem fetchLoopGo_dropLast (sl latest : Nat) :
    ∀ fuel prev se, sl ∣ se →
      ∀ m ∈ (LightClientSync.fetchLoopGo sl latest fuel prev se).dropLast,
        sl ∣ m.2 ∧ m.2 < latest := by
  intro fuel
  induction fuel with
  | zero => intro prev se _ m hm; simp [LightClientSync.fetchLoopGo] at hm
  | succ n ih =>
    intro prev se hdvd m hm
    rw [LightClientSync.fetchLoopGo] at hm
    split_ifs at hm with h
    · obtain ⟨q, rest, htl, _⟩ := fetchLoopGo_head sl latest n se (se + sl)
      rw [htl, dropLast_cons_cons] at hm
      rcases List.mem_cons.mp hm with rfl | hm'
      · exact ⟨hdvd, h⟩
      · refine ih se (se + sl) (Nat.dvd_add hdvd dvd_rfl) m ?_
        rw [htl]
        exact hm'
    · simp at hm

/-- Completeness of the loop: with enough fuel, every multiple of the
session length between the starting `session_end_block` (inclusive) and
`latest_finalized_height` (exclusive) is targeted by some message. -/
theorem fetchLoopGo_mem (sl latest : Nat) (hsl : 0 < sl) :
    ∀ fuel prev se b, latest ≤ se + fuel → sl ∣ se → sl ∣ b → se ≤ b →
      b < latest →
      b ∈ (LightClientSync.fetchLoopGo sl latest fuel prev se).map Prod.snd := by
  intro fuel
  induction fuel with
  | zero => intro prev se b hfu _ _ hsb hbl; omega
  | succ n ih =>
    intro prev se b hfu hse hb hsb hbl
    unfold LightClientSync.fetchLoopGo
    rw [if_pos (by omega : se < latest), List.map_cons]
    rcases Nat.eq_or_lt_of_le hsb with rfl | hlt
    · exact List.mem_cons_self _ _
    · have hstep : se + sl ≤ b := by
        obtain ⟨i, rfl⟩ := hse
        obtain ⟨j, rfl⟩ := hb
        have hij : i < j := Nat.lt_of_mul_lt_mul_left hlt
        have := Nat.mul_le_mul_left sl (Nat.succ_le_of_lt hij)
        rw [Nat.mul_succ] at this
        omega
      exact List.mem_cons_of_mem _
        (ih se (se + sl) b (by omega) (Nat.dvd_add hse dvd_rfl) hb hstep hbl)

/-- The bumped starting `session_end_block` is a session boundary. -/
theorem dvd_bumped_session_end (sl prev : Nat) :
    sl ∣ LightClientSync.bumped_session_end sl prev := by
  unfold LightClientSync.bumped_session_end LightClientSync.session_end_for_block
  split_ifs
  · exact Nat.dvd_add (dvd_mul_right sl _) dvd_rfl
  · exact dvd_mul_right sl _

/-- Any session boundary strictly above `previous_finalized_height` is at
least the bumped starting `session_end_block`. -/
theorem bumped_session_end_le (sl prev b : Nat) (hsl : 0 < sl) (hdvd : sl ∣ b)
    (hgt : prev < b) : LightClientSync.bumped_session_end sl prev ≤ b := by
  obtain ⟨m, rfl⟩ := hdvd
  unfold LightClientSync.bumped_session_end LightClientSync.session_end_for_block
  split_ifs with h
  · have hm : (prev + sl - 1) / sl < m := by
      by_contra hc
      push_neg at hc
      have := Nat.mul_le_mul_left sl hc
      omega
    have := Nat.mul_le_mul_left sl (Nat.succ_le_of_lt hm)
    rw [Nat.mul_succ] at this
    omega
  · have hdle : (prev + sl - 1) / sl ≤ m := by
      rw [Nat.div_le_iff_le_mul_add_pred hsl]
      have : prev ≤ sl * m := Nat.le_of_lt hgt
      omega
    exact Nat.mul_le_mul_left sl hdle

/-- C5: with `previous_finalized_height = 100`, `session_length = 50` and
`latest_finalized_height = 240`, `fetch_mandatory_updates` emits exactly the
three messages targeting the session boundaries 150 and 200 and finally 240;
and in general (for a positive session length) it emits a non-empty message
list with strictly increasing target heights, whose non-final messages
target exactly the session boundaries strictly between
`previous_finalized_height` and `latest_finalized_height`, and whose final
message targets `latest_finalized_height`. -/
theorem claim_C5_mandatory_updates :
    LightClientSync.fetch_mandatory_updates 50 100 240 =
      [(100, 150), (150, 200), (200, 240)] ∧
    ∀ sl prev latest, 0 < sl →
      LightClientSync.fetch_mandatory_updates sl prev latest ≠ [] ∧
      List.Chain' (fun a b => a.2 < b.2)
        (LightClientSync.fetch_mandatory_updates sl prev latest) ∧
      (LightClientSync.fetch_mandatory_updates sl prev latest).getLast?.map
        Prod.snd = some latest ∧
      (∀ m ∈ (LightClientSync.fetch_mandatory_updates sl prev latest).dropLast,
        sl ∣ m.2 ∧ m.2 < latest) ∧
      (∀ b, sl ∣ b → prev < b → b < latest →
        b ∈ (LightClientSync.fetch_mandatory_updates sl prev latest).map Prod.snd) := by
  constructor
  · decide
  · intro sl prev latest hsl
    unfold LightClientSync.fetch_mandatory_updates LightClientSync.fetchLoop
    refine ⟨fetchLoopGo_ne_nil _ _ _ _ _, fetchLoopGo_chain_snd sl latest hsl _ _ _,
      fetchLoopGo_getLast sl latest _ _ _,
      fetchLoopGo_dropLast sl latest _ _ _ (dvd_bumped_session_end sl prev), ?_⟩
    intro b hdvd hgt hbl
    have hge : LightClientSync.bumped_session_end sl prev ≤ b :=
      bumped_session_end_le sl prev b hsl hdvd hgt
    exact fetchLoopGo_mem sl latest hsl _ prev
      (LightClientSync.bumped_session_end sl prev) b (by omega)
      (dvd_bumped_session_end sl prev) hdvd hge hbl

/-- C5, witness for the general part at a concrete input. -/
theorem claim_C5_mandatory_updates_witness :
    LightClientSync.fetch_mandatory_updates 50 120 199 ≠ [] :=
  (claim_C5_mandatory_updates.2 50 120 199 (by omega)).1

/-- C6, counterexample: with `session_length = 50`, a client last updated at
relay height 120 (mid-session) and the source chain finalized at height 199,
`is_synced` returns `true` even though the session boundary 150 lies
strictly between them and `fetch_mandatory_updates` on the same state emits
a mandatory session-boundary update targeting 150 (two messages, not just
the final one) — so `is_synced` is not "false exactly when a session
boundary separating the two heights requires a mandatory update". -/
theorem counterexample_C6_is_synced_boundary :
    LightClientSync.is_synced 50 120 199 = true ∧
    LightClientSync.fetch_mandatory_updates 50 120 199 = [(120, 150), (150, 199)] ∧
    50 ∣ 150 ∧ 120 < 150 ∧ 150 < 199 := by
  refine ⟨by decide, by decide, by decide, by decide, by decide⟩

/-- C6, amended: `is_synced` measures from the end of the session containing
the previous finalized height, not from that height itself: for a positive
session length, when `session_end_for_block` of the previous height does not
exceed the latest finalized height (and the latter fits in a u32, so the u32
subtraction does not wrap), `is_synced` returns `true` iff the latest
finalized height is less than one full session length past that session end.
A boundary crossed between a mid-session previous height and its session end
plus a partial session is therefore not detected. -/
theorem claim_C6_is_synced_iff (sl prev latest : Nat) (hsl : 0 < sl)
    (hse : LightClientSync.session_end_for_block sl prev ≤ latest)
    (hlt : latest < 2 ^ 32) :
    LightClientSync.is_synced sl prev latest = true ↔
      latest < LightClientSync.session_end_for_block sl prev + sl := by
  unfold LightClientSync.is_synced
  have hmod : (latest + 2 ^ 32 - LightClientSync.session_end_for_block sl prev) %
      2 ^ 32 = latest - LightClientSync.session_end_for_block sl prev := by
    rw [show latest + 2 ^ 32 - LightClientSync.session_end_for_block sl prev =
        (latest - LightClientSync.session_end_for_block sl prev) + 2 ^ 32 by omega,
      Nat.add_mod_right]
    exact Nat.mod_eq_of_lt (by omega)
  rw [hmod]
  have hdiv : (latest - LightClientSync.session_end_for_block sl prev) / sl = 0 ↔
      latest - LightClientSync.session_end_for_block sl prev < sl :=
    Nat.div_eq_zero_iff hsl
  simp only [decide_eq_true_eq]
  constructor
  · intro h
    have h0 : (latest - LightClientSync.session_end_for_block sl prev) / sl = 0 :=
      Nat.lt_one_iff.mp (Nat.not_le.mp h)
    have := hdiv.mp h0
    omega
  · intro h
    have h0 : (latest - LightClientSync.session_end_for_block sl prev) / sl = 0 :=
      hdiv.mpr (by omega)
    rw [h0]
    omega

/-- C6, witness for the amended claim at a concrete input. -/
theorem claim_C6_is_synced_iff_witness :
    LightClientSync.is_synced 50 120 199 = true ↔
      199 < LightClientSync.session_end_for_block 50 120 + 50 :=
  claim_C6_is_synced_iff 50 120 199 (by omega) (by decide) (by decide)

/-- C10: `ConnectionEnd::from_tokens` can never return successfully — it
unwraps `tokens[4]` both as a string (the counterparty `connection_id`) and
as a uint (`delay_period`), and no ABI token is both, so on every input at
least one unwrap panics (here: some bind yields `none`). -/
theorem claim_C10_connection_end_from_tokens (tokens : List EthereumContract.Token) :
    EthereumContract.ConnectionEnd.from_tokens tokens = none := by
  unfold EthereumContract.ConnectionEnd.from_tokens
  cases h1 : tokens[1]? >>= EthereumContract.Token.into_array with
  | none => simp [h1]
  | some vec =>
    cases h2 : EthereumContract.versionsFromTokens vec with
    | none => simp [h1, h2]
    | some versions =>
      cases h0 : tokens[0]? >>= EthereumContract.Token.into_string with
      | none => simp [h1, h2, h0]
      | some cid =>
        cases hst : tokens[2]? >>= EthereumContract.Token.into_uint with
        | none => simp [h1, h2, h0, hst]
        | some su =>
          cases hsu : EthereumContract.as_u32 su with
          | none => simp [h1, h2, h0, hst, hsu]
          | some st =>
            cases h3 : tokens[3]? >>= EthereumContract.Token.into_string with
            | none => simp [h1, h2, h0, hst, hsu, h3]
            | some c3 =>
              cases h4 : tokens[4]? with
              | none => simp [h1, h2, h0, hst, hsu, h3, h4]
              | some t4 =>
                cases t4 with
                | string s =>
                  cases h5 : tokens[5]? >>= EthereumContract.Token.into_bytes with
                  | none =>
                    simp [h1, h2, h0, hst, hsu, h3, h4, h5,
                      EthereumContract.Token.into_string]
                  | some b5 =>
                    simp [h1, h2, h0, hst, hsu, h3, h4, h5,
                      EthereumContract.Token.into_string,
                      EthereumContract.Token.into_uint]
                | address a =>
                  simp [h1, h2, h0, hst, hsu, h3, h4, EthereumContract.Token.into_string]
                | fixedBytes b =>
                  simp [h1, h2, h0, hst, hsu, h3, h4, EthereumContract.Token.into_string]
                | bytes b =>
                  simp [h1, h2, h0, hst, hsu, h3, h4, EthereumContract.Token.into_string]
                | int i =>
                  simp [h1, h2, h0, hst, hsu, h3, h4, EthereumContract.Token.into_string]
                | uint u =>
                  simp [h1, h2, h0, hst, hsu, h3, h4, EthereumContract.Token.into_string]
                | boolean b =>
                  simp [h1, h2, h0, hst, hsu, h3, h4, EthereumContract.Token.into_string]
                | fixedArray ts =>
                  simp [h1, h2, h0, hst, hsu, h3, h4, EthereumContract.Token.into_string]
                | array ts =>
                  simp [h1, h2, h0, hst, hsu, h3, h4, EthereumContract.Token.into_string]
                | tuple ts =>
                  simp [h1, h2, h0, hst, hsu, h3, h4, EthereumContract.Token.into_string]
